import Mathlib

/-!
Verification of the Screen event-routing core of nanogui (src/screen.cpp,
include/nanogui/screen.h, include/nanogui/common.h).

Widgets are identified by natural-number ids.  The widget arena (parent
links, Window/Popup classification, bounds tests, hit testing) lives in the
excluded Widget base class, so it is supplied here as an environment of
functions (`Env`); the Screen's own mutable fields are the `ScreenState`
record.  Every event handler is translated as a pure function from the old
state (plus the raw callback arguments and the current time `now`, standing
for `ngGetTime()`) to a triple: the Bool the C++ function returns, the new
state, and a trace (`List Ev`) of the widget-visible notifications fired,
in order.  C++ loops whose termination is not structural (the focus-chain
walk and the `moveWindowToFront` fixed-point recursion) take an explicit
fuel argument and return `none` when the fuel runs out, so `none` for every
fuel corresponds to non-termination of the original loop.
-/

set_option autoImplicit false

namespace Nanogui

/-- NG_RELEASE action code, include/nanogui/common.h line 506. -/
def NG_RELEASE : Nat := 0

/-- NG_PRESS action code, include/nanogui/common.h line 507. -/
def NG_PRESS : Nat := 1

/-- NG_MOUSE_BUTTON_1, include/nanogui/common.h line 510. -/
def NG_MOUSE_BUTTON_1 : Nat := 0

/-- NG_MOUSE_BUTTON_2, include/nanogui/common.h line 511. -/
def NG_MOUSE_BUTTON_2 : Nat := 1

/-- A widget-visible notification fired by a Screen event handler. -/
inductive Ev where
  /-- `w->focusEvent(false)` fired from `Screen::updateFocus`. -/
  | focusLost (w : Nat)
  /-- `w->focusEvent(true)` fired from `Screen::updateFocus`. -/
  | focusGained (w : Nat)
  /-- `w->mouseButtonEvent(pos, button, pressed, mods)` sent to a specific
      widget (the captured drag widget), screen.cpp lines 230-232. -/
  | buttonTo (w : Nat) (pos : Int × Int) (button : Nat) (pressed : Bool)
  /-- the final `mouseButtonEvent(...)` dispatched through the Screen's own
      Widget base handler, screen.cpp line 251. -/
  | screenButton (pos : Int × Int) (button : Nat) (pressed : Bool)
  /-- `ngSetCursor(...)` backend call, screen.cpp line 236. -/
  | setCursorEv (c : Nat)
  /-- `scrollEvent(mMousePos, rel)` dispatch, screen.cpp line 298. -/
  | scrollTo (pos : Int × Int) (rel : Int × Int)
  /-- `resizeEvent(mSize)` dispatch, screen.cpp line 322. -/
  | resizeTo (sz : Int × Int)
  deriving DecidableEq

/-- The Screen's interaction state: the mutable fields of `class Screen`
(include/nanogui/screen.h lines 105-120) that the event handlers touch.
`focused` is the set (as a list) of widget ids whose `mFocused` flag is
true; `children` is the Screen's `mChildren` id sequence (back to front). -/
structure ScreenState where
  mouseState : Nat
  modifiers : Int
  mousePos : Int × Int
  dragActive : Bool
  dragWidget : Option Nat
  focusPath : List Nat
  focused : List Nat
  lastInteraction : Int
  cursor : Nat
  fbSize : Int × Int
  size : Int × Int
  children : List Nat
  deriving DecidableEq

/-- The immutable widget-arena facts and collaborator handlers the Screen
consults.  The Widget base class is not part of the analysed sources, so
these are supplied as functions.  Modelled from the spec: `isWindow w` is
`dynamic_cast<Window*>` succeeding, `modal w` is `Window::modal()`,
`contains w p` is `Widget::contains` (point within the widget's bounds),
`findWidget p` is the hit test of spec section 4.1 (`none` plays the role
of a null pointer; the Screen itself is returned as `some screenId`),
`popupOwner c = some v` states that child `c` is a `Popup` whose
`parentWindow()` is `v`, `parent` is the widget tree's parent link,
`parentAbsPos w` is `w->parent()->absolutePosition()`, and the three
handlers are the virtual `mouseButtonEvent` / `scrollEvent` /
`resizeEvent` collaborator overrides reached at the end of a callback. -/
structure Env where
  screenId : Nat
  parent : Nat → Option Nat
  isWindow : Nat → Bool
  modal : Nat → Bool
  contains : Nat → Int × Int → Bool
  findWidget : Int × Int → Option Nat
  widgetCursor : Nat → Nat
  parentAbsPos : Nat → Int × Int
  popupOwner : Nat → Option Nat
  buttonHandler : Int × Int → Nat → Bool → Int → Bool
  scrollHandler : Int × Int → Int × Int → Bool
  resizeHandler : Int × Int → Bool

/-- Componentwise difference of 2D integer vectors. -/
def vsub (a b : Int × Int) : Int × Int := (a.1 - b.1, a.2 - b.2)

/-- `mMouseState |= 1 << button`, screen.cpp line 223. -/
def setBit (ms b : Nat) : Nat := ms ||| (1 <<< b)

/-- `mMouseState &= ~(1 << button)`, screen.cpp line 225, with the C
complement taken at 32-bit int width. -/
def clrBit (ms b : Nat) : Nat := ms &&& (4294967295 ^^^ (1 <<< b))

/-! ### Window stacking: Screen::moveWindowToFront, screen.cpp lines 367-387 -/

/-- The erase-remove idiom plus `push_back` of screen.cpp lines 368-369:
every occurrence of `w` is removed from the child list and `w` is appended
at the back (frontmost position). -/
def bringToEnd (w : Nat) (cs : List Nat) : List Nat :=
  cs.filter (fun c => c ≠ w) ++ [w]

/-- The `baseIndex` scan of screen.cpp lines 373-376: a loop over all
indices that records the index of every element equal to `w`, so it ends
holding the last occurrence (0 when `w` is absent).  `b` is the running
`baseIndex`, `i` the running index. -/
def lastIndexFrom (w : Nat) : Nat → Nat → List Nat → Nat
  | b, _, [] => b
  | b, i, c :: cs => lastIndexFrom w (if c = w then i else b) (i + 1) cs

/-- `baseIndex` as computed by screen.cpp lines 373-376. -/
def lastIndexOf (w : Nat) (cs : List Nat) : Nat := lastIndexFrom w 0 0 cs

/-- The offending-popup scan of screen.cpp lines 378-385: the first child
(by index, starting at `i`) that is a Popup whose `parentWindow()` is `w`
and whose index precedes `base`; the loop breaks at the first hit. -/
def findOffender (owner : Nat → Option Nat) (w base : Nat) : Nat → List Nat → Option Nat
  | _, [] => none
  | i, c :: cs =>
    if owner c = some w ∧ i < base then some c
    else findOffender owner w base (i + 1) cs

mutual

/-- `Screen::moveWindowToFront(window)`, screen.cpp lines 367-387, on the
child id list.  `owner` is `Env.popupOwner`.  The move to the back is
followed by the brute-force fixed-point loop `mwtfLoop`; the recursion of
line 381 is not structurally terminating, so `fuel` bounds the nesting
depth and `none` means the fuel ran out. -/
def moveWindowToFront (owner : Nat → Option Nat) (fuel w : Nat) (cs : List Nat) :
    Option (List Nat) :=
  match fuel with
  | 0 => none
  | fuel + 1 => mwtfLoop owner fuel w (bringToEnd w cs)

/-- The `do { ... } while (changed)` loop of screen.cpp lines 372-386: it
recomputes `baseIndex`, scans for an offending popup, and either returns
the current list (no offender) or recursively moves the offender to the
front and repeats. -/
def mwtfLoop (owner : Nat → Option Nat) (fuel w : Nat) (cs : List Nat) :
    Option (List Nat) :=
  match fuel with
  | 0 => none
  | fuel + 1 =>
    match findOffender owner w (lastIndexOf w cs) 0 cs with
    | none => some cs
    | some p =>
      match moveWindowToFront owner fuel p cs with
      | none => none
      | some cs2 => mwtfLoop owner fuel w cs2

end

/-! ### Focus management: Screen::updateFocus, screen.cpp lines 330-349 -/

/-- The focus-lost loop of screen.cpp lines 331-335: every widget of the
old focus path whose `mFocused` flag is set receives `focusEvent(false)`
(which clears its flag, per the Widget base contract of spec section 4.2);
unfocused entries are skipped.  Returns the updated flag set and the trace
of notifications, in path order. -/
def fireFocusLost : List Nat → List Nat → List Nat × List Ev
  | foc, [] => (foc, [])
  | foc, w :: ws =>
    if w ∈ foc then
      let r := fireFocusLost (foc.filter (fun x => x ≠ w)) ws
      (r.1, Ev.focusLost w :: r.2)
    else fireFocusLost foc ws

/-- The parent walk of screen.cpp lines 337-343: starting from the target
widget, push each widget onto the path and remember the last `Window`
ancestor seen (`window = widget` overwrites on every Window), then follow
`parent()`.  The C++ `while` has no structural bound, so `fuel` limits the
walk; the final Bool is true exactly when the walk reached a widget with
no parent before the fuel ran out. -/
def walkUp (parent : Nat → Option Nat) (isWindow : Nat → Bool)
    (fuel : Nat) (cur : Option Nat) (win : Option Nat) :
    List Nat × Option Nat × Bool :=
  match cur with
  | none => ([], win, true)
  | some w =>
    match fuel with
    | 0 => ([], win, false)
    | fuel + 1 =>
      let win2 := if isWindow w then some w else win
      let r := walkUp parent isWindow fuel (parent w) win2
      (w :: r.1, r.2)

/-- The focus-gained loop of screen.cpp lines 344-345, fed with the
reversed new path (root first): each widget receives `focusEvent(true)`,
which sets its `mFocused` flag. -/
def fireFocusGained : List Nat → List Nat → List Nat × List Ev
  | foc, [] => (foc, [])
  | foc, w :: ws =>
    let r := fireFocusGained (if w ∈ foc then foc else w :: foc) ws
    (r.1, Ev.focusGained w :: r.2)

/-- `Screen::updateFocus(widget)`, screen.cpp lines 330-349: fire focus-lost
along the old path, clear and rebuild `mFocusPath` by walking the parent
chain, fire focus-gained root-to-leaf, and if a Window ancestor was found
move it to the front of the child stack.  `none` reports fuel exhaustion in
the parent walk or in `moveWindowToFront`. -/
def updateFocus (env : Env) (fuelW fuelM : Nat) (s : ScreenState)
    (target : Option Nat) : Option (ScreenState × List Ev) :=
  let l := fireFocusLost s.focused s.focusPath
  let wk := walkUp env.parent env.isWindow fuelW target none
  if wk.2.2 then
    let g := fireFocusGained l.1 wk.1.reverse
    let s2 := { s with focused := g.1, focusPath := wk.1 }
    match wk.2.1 with
    | none => some (s2, l.2 ++ g.2)
    | some win =>
      match moveWindowToFront env.popupOwner fuelM win s2.children with
      | none => none
      | some cs => some ({ s2 with children := cs }, l.2 ++ g.2)
  else none

/-- `updateFocus(nullptr)` as called from screen.cpp line 245: with a null
target the walk is empty, no Window is found, and the call just fires the
focus-lost notifications and clears the path. -/
def clearFocus (s : ScreenState) : ScreenState × List Ev :=
  let l := fireFocusLost s.focused s.focusPath
  ({ s with focused := l.1, focusPath := [] }, l.2)

/-- `updateFocus` with a null target is exactly `clearFocus`. -/
theorem updateFocus_none (env : Env) (fuelW fuelM : Nat) (s : ScreenState) :
    updateFocus env fuelW fuelM s none = some (clearFocus s) := by
  simp [updateFocus, clearFocus, walkUp, fireFocusGained]

/-! ### Keyboard dispatch: Screen::keyboardEvent, screen.cpp lines 154-171 -/

/-- The dispatch loop body of screen.cpp lines 156-158, applied to the
visit sequence: each visited widget receives the event only if its
`focused()` flag is set (`&&` short-circuits), and the loop returns true
at the first receiver that consumes it.  The second component records, in
order, the widgets the event was actually delivered to. -/
def kbDispatch (consume : Nat → Bool) (foc : List Nat) : List Nat → Bool × List Nat
  | [] => (false, [])
  | w :: ws =>
    if w ∈ foc then
      if consume w then (true, [w])
      else
        let r := kbDispatch consume foc ws
        (r.1, w :: r.2)
    else kbDispatch consume foc ws

/-- `Screen::keyboardEvent` (screen.cpp lines 154-162); the character
variant at lines 164-171 is line-for-line identical.  The iterator range
`rbegin()+1 .. rend()` visits `mFocusPath[n-2], ..., mFocusPath[0]`, i.e.
`path.dropLast.reverse`: every entry except the last (the Screen at the
root end), starting from the root side. -/
def keyboardEvent (consume : Nat → Bool) (foc : List Nat) (path : List Nat) :
    Bool × List Nat :=
  if 0 < path.length then kbDispatch consume foc path.dropLast.reverse
  else (false, [])

/-- `Screen::keyCallbackEvent`, screen.cpp lines 259-267: records the
interaction time, then delegates to `keyboardEvent`; `charCallbackEvent`
(lines 269-278) is identical with the character handler. -/
def keyCallbackEvent (consume : Nat → Bool) (now : Int) (s : ScreenState) :
    Bool × ScreenState × List Nat :=
  let s1 := { s with lastInteraction := now }
  let r := keyboardEvent consume s1.focused s1.focusPath
  (r.1, s1, r.2)

/-- Modelled from the claim wording of C2 (spec section 4.6, key events):
delivery "to every focused widget along focusPath from leaf outward
(excluding the Screen itself)", i.e. the same dispatch loop run over
`path.dropLast` in leaf-first order.  Used only to compare the spec's
claimed order against the code's order. -/
def keyboardEventLeafOutward (consume : Nat → Bool) (foc : List Nat)
    (path : List Nat) : Bool × List Nat :=
  if 0 < path.length then kbDispatch consume foc path.dropLast
  else (false, [])

/-! ### Pointer / scroll / resize callbacks, screen.cpp lines 209-328 -/

/-- The modality gate of screen.cpp lines 213-220 (and 290-297): when the
focus path has more than one entry and its second-from-top element
(`mFocusPath[size-2]`) is a modal Window that does not contain the current
mouse position, the event is suppressed. -/
def modalSuppressed (env : Env) (s : ScreenState) : Bool :=
  if h : 1 < s.focusPath.length then
    let w := s.focusPath.get ⟨s.focusPath.length - 2, by omega⟩
    env.isWindow w && env.modal w && !env.contains w s.mousePos
  else false

/-- `Screen::mouseButtonCallbackEvent`, screen.cpp lines 209-257: stores
the modifier mask and interaction time, applies the modality gate, updates
the button bitmask, synthesizes a release to the captured drag widget when
a release lands on a different widget, refreshes the hover cursor, starts
or stops a drag (clearing focus when a qualifying press hits nothing), and
finally dispatches the event through the Widget base handler. -/
def mouseButtonCallbackEvent (env : Env) (now : Int) (s : ScreenState)
    (button action : Nat) (modifiers : Int) : Bool × ScreenState × List Ev :=
  let s1 := { s with modifiers := modifiers, lastInteraction := now }
  if modalSuppressed env s1 then (false, s1, [])
  else
    let ms := if action = NG_PRESS then setBit s1.mouseState button
              else clrBit s1.mouseState button
    let s2 := { s1 with mouseState := ms }
    let dropWidget := env.findWidget s2.mousePos
    let tr1 : List Ev :=
      if s2.dragActive ∧ action = NG_RELEASE ∧ dropWidget ≠ s2.dragWidget then
        match s2.dragWidget with
        | some d => [Ev.buttonTo d (vsub s2.mousePos (env.parentAbsPos d)) button false]
        | none => []
      else []
    let cUpd : Option Nat :=
      match dropWidget with
      | some d => if env.widgetCursor d ≠ s2.cursor then some (env.widgetCursor d) else none
      | none => none
    let s3 := match cUpd with
      | some c => { s2 with cursor := c }
      | none => s2
    let tr2 : List Ev := match cUpd with
      | some c => [Ev.setCursorEv c]
      | none => []
    let str :=
      if action = NG_PRESS ∧ (button = NG_MOUSE_BUTTON_1 ∨ button = NG_MOUSE_BUTTON_2) then
        let dw0 := env.findWidget s3.mousePos
        let dw := if dw0 = some env.screenId then none else dw0
        let s4 := { s3 with dragWidget := dw, dragActive := dw.isSome }
        if dw = none then clearFocus s4 else (s4, ([] : List Ev))
      else ({ s3 with dragActive := false, dragWidget := none }, ([] : List Ev))
    let s5 := str.1
    (env.buttonHandler s5.mousePos button (decide (action = NG_PRESS)) s5.modifiers,
     s5,
     tr1 ++ tr2 ++ str.2 ++ [Ev.screenButton s5.mousePos button (decide (action = NG_PRESS))])

/-- `Screen::scrollCallbackEvent`, screen.cpp lines 287-304: records the
interaction time, applies the modality gate, and dispatches `scrollEvent`
at the current mouse position. -/
def scrollCallbackEvent (env : Env) (now : Int) (s : ScreenState)
    (relX relY : Int) : Bool × ScreenState × List Ev :=
  let s1 := { s with lastInteraction := now }
  if modalSuppressed env s1 then (false, s1, [])
  else (env.scrollHandler s1.mousePos (relX, relY), s1,
        [Ev.scrollTo s1.mousePos (relX, relY)])

/-- `Screen::resizeCallbackEvent`, screen.cpp lines 306-328.  `fbQ` and
`sizeQ` are the freshly queried framebuffer and window sizes (after the
platform-specific pixel-ratio division of lines 311-313).  Note the
degenerate-size check of line 315 tests the *cached member* `mFBSize`
together with the queried `size`, not the queried `fbSize`. -/
def resizeCallbackEvent (env : Env) (now : Int) (s : ScreenState)
    (fbQ sizeQ : Int × Int) : Bool × ScreenState × List Ev :=
  if s.fbSize = (0, 0) ∨ sizeQ = (0, 0) then (false, s, [])
  else
    let s1 := { s with fbSize := fbQ, size := sizeQ, lastInteraction := now }
    (env.resizeHandler s1.size, s1, [Ev.resizeTo s1.size])

/-- `Screen::disposeWindow(window)`, screen.cpp lines 351-357: clears the
whole focus path when the window itself occurs in it, nulls `mDragWidget`
when it is exactly the window, and removes the window from the children.
The final `removeChild` lives in the excluded Widget base; modelled from
the spec (section 3 lifecycle): removal from the parent's child sequence
destroys the widget. -/
def disposeWindow (s : ScreenState) (w : Nat) : ScreenState :=
  { s with
    focusPath := if w ∈ s.focusPath then [] else s.focusPath,
    dragWidget := if s.dragWidget = some w then none else s.dragWidget,
    children := s.children.erase w }

/-- Membership of `x` in the subtree rooted at `w`: `x` reaches `w` by
following parent links (including `x = w`), within `fuel` steps. -/
def inSubtree (parent : Nat → Option Nat) : Nat → Nat → Nat → Bool
  | 0, _, _ => false
  | fuel + 1, x, w =>
    x = w ||
      match parent x with
      | some p => inSubtree parent fuel p w
      | none => false

/-- The ancestor chain of `w`: the list `w, parent w, ...` up to the root
(the widget with no parent), leaf first.  This is the path shape claimed
for `focusPath` by spec section 4.2. -/
inductive IsAncestorChain (parent : Nat → Option Nat) : Nat → List Nat → Prop where
  | root (w : Nat) (h : parent w = none) : IsAncestorChain parent w [w]
  | step (w p : Nat) (l : List Nat) (h : parent w = some p)
      (hl : IsAncestorChain parent p l) : IsAncestorChain parent w (w :: l)

/-- Recognizes widget-targeted mouse-button notifications in a trace. -/
def isWidgetButtonEv : Ev → Bool
  | Ev.buttonTo _ _ _ _ => true
  | _ => false

/-- Recognizes focus-gained notifications in a trace. -/
def isGainedEv : Ev → Bool
  | Ev.focusGained _ => true
  | _ => false

/-! ### General lemmas about the event dispatchers -/

/-- The modality gate only reads `focusPath` and `mousePos`, so updating the
modifier mask and the interaction time does not change it. -/
theorem modalSuppressed_update (env : Env) (s : ScreenState) (m t : Int) :
    modalSuppressed env { s with modifiers := m, lastInteraction := t } =
      modalSuppressed env s := rfl

/-- A suppressed button event: the exact result of
`mouseButtonCallbackEvent` when the modality gate fires. -/
theorem mouseButton_suppressed_frame (env : Env) (now : Int) (s : ScreenState)
    (button action : Nat) (m : Int) (hsup : modalSuppressed env s = true) :
    mouseButtonCallbackEvent env now s button action m =
      (false, { s with modifiers := m, lastInteraction := now }, []) := by
  have hsup2 : modalSuppressed env
      ({ s with modifiers := m, lastInteraction := now }) = true := hsup
  simp [mouseButtonCallbackEvent, hsup2]

/-- A suppressed scroll event: the exact result of `scrollCallbackEvent`
when the modality gate fires. -/
theorem scroll_suppressed_frame (env : Env) (now : Int) (s : ScreenState)
    (relX relY : Int) (hsup : modalSuppressed env s = true) :
    scrollCallbackEvent env now s relX relY =
      (false, { s with lastInteraction := now }, []) := by
  have hsup2 : modalSuppressed env ({ s with lastInteraction := now }) = true := hsup
  simp [scrollCallbackEvent, hsup2]

/-- Closed form of the keyboard dispatch loop: over a visit sequence `l`,
the loop returns true exactly when some focused element consumes the event,
and it delivers to the focused elements of `l` in order, up to and
including the first consumer. -/
theorem kbDispatch_eq (consume : Nat → Bool) (foc : List Nat) (l : List Nat) :
    kbDispatch consume foc l =
      ((l.filter (fun w => decide (w ∈ foc))).any consume,
       (l.filter (fun w => decide (w ∈ foc))).take
         ((l.filter (fun w => decide (w ∈ foc))).findIdx consume + 1)) := by
  induction l with
  | nil => rfl
  | cons w ws ih =>
    by_cases hw : w ∈ foc
    · by_cases hc : consume w = true
      · simp [kbDispatch, hw, hc, List.findIdx_cons]
      · simp only [Bool.not_eq_true] at hc
        simp [kbDispatch, hw, hc, ih, List.findIdx_cons]
    · simp [kbDispatch, hw, ih]

/-- Closed form of `Screen::keyboardEvent`. -/
theorem keyboardEvent_eq (consume : Nat → Bool) (foc path : List Nat) :
    keyboardEvent consume foc path =
      ((path.dropLast.reverse.filter (fun w => decide (w ∈ foc))).any consume,
       (path.dropLast.reverse.filter (fun w => decide (w ∈ foc))).take
         ((path.dropLast.reverse.filter (fun w => decide (w ∈ foc))).findIdx
            consume + 1)) := by
  by_cases h : 0 < path.length
  · simp [keyboardEvent, h, kbDispatch_eq]
  · have hnil : path = [] := List.eq_nil_of_length_eq_zero (by omega)
    subst hnil; rfl

/-! ### Lemmas about the focus walk and notification loops -/

/-- Unfolding: the walk stops at a null widget. -/
theorem walkUp_none (parent : Nat → Option Nat) (isWindow : Nat → Bool)
    (fuel : Nat) (win : Option Nat) :
    walkUp parent isWindow fuel none win = ([], win, true) := by
  cases fuel <;> rfl

/-- Unfolding: one step of the walk. -/
theorem walkUp_succ (parent : Nat → Option Nat) (isWindow : Nat → Bool)
    (fuel w : Nat) (win : Option Nat) :
    walkUp parent isWindow (fuel + 1) (some w) win =
      ((w :: (walkUp parent isWindow fuel (parent w)
          (if isWindow w then some w else win)).1),
       (walkUp parent isWindow fuel (parent w)
          (if isWindow w then some w else win)).2) := rfl

/-- A completed walk (one that reached a parentless widget within its fuel)
produces exactly the ancestor chain of the start widget, leaf first. -/
theorem walkUp_chain (parent : Nat → Option Nat) (isWindow : Nat → Bool) :
    ∀ (fuel w : Nat) (win : Option Nat),
      (walkUp parent isWindow fuel (some w) win).2.2 = true →
      IsAncestorChain parent w (walkUp parent isWindow fuel (some w) win).1 := by
  intro fuel
  induction fuel with
  | zero => intro w win h; simp [walkUp] at h
  | succ n ih =>
    intro w win h
    rw [walkUp_succ] at h ⊢
    cases hp : parent w with
    | none =>
      rw [walkUp_none]
      exact IsAncestorChain.root w hp
    | some p =>
      rw [hp] at h
      exact IsAncestorChain.step w p _ hp (ih p _ h)

/-- The focus-lost loop notifies a widget exactly once when it is focused
and occurs in the old path (the flag is cleared at the first occurrence, so
even duplicate entries are notified once), and never otherwise. -/
theorem fireFocusLost_count (x : Nat) :
    ∀ (l foc : List Nat),
      ((fireFocusLost foc l).2).count (Ev.focusLost x) =
        if x ∈ foc ∧ x ∈ l then 1 else 0 := by
  intro l
  induction l with
  | nil => intro foc; simp [fireFocusLost]
  | cons w ws ih =>
    intro foc
    by_cases hw : w ∈ foc
    · simp only [fireFocusLost, if_pos hw, List.count_cons, ih]
      by_cases hx : x = w
      · subst hx
        simp [List.mem_filter, hw]
      · simp [List.mem_filter, hx, Ne.symm hx, List.mem_cons]
    · simp only [fireFocusLost, if_neg hw, ih]
      by_cases hx : x = w
      · subst hx; simp [hw]
      · simp [hx, List.mem_cons]

/-- The focus-lost loop emits no focus-gained notifications. -/
theorem fireFocusLost_no_gained (l : List Nat) :
    ∀ foc : List Nat, ((fireFocusLost foc l).2).filter isGainedEv = [] := by
  induction l with
  | nil => intro foc; rfl
  | cons w ws ih =>
    intro foc
    by_cases hw : w ∈ foc
    · simp [fireFocusLost, hw, isGainedEv, ih]
    · simp [fireFocusLost, hw, ih]

/-- The focus-gained loop notifies exactly the widgets of its input
sequence, in order. -/
theorem fireFocusGained_trace (l : List Nat) :
    ∀ foc : List Nat, (fireFocusGained foc l).2 = l.map Ev.focusGained := by
  induction l with
  | nil => intro foc; rfl
  | cons w ws ih => intro foc; simp [fireFocusGained, ih]

/-- A list of focus-gained notifications contains no focus-lost ones. -/
theorem count_focusLost_map_gained (x : Nat) (l : List Nat) :
    (l.map Ev.focusGained).count (Ev.focusLost x) = 0 := by
  induction l with
  | nil => rfl
  | cons w ws ih => simp [List.count_cons, ih]

/-- Filtering focus-gained notifications out of a pure gained trace is the
identity. -/
theorem filter_gained_map_gained (l : List Nat) :
    (l.map Ev.focusGained).filter isGainedEv = l.map Ev.focusGained := by
  induction l with
  | nil => rfl
  | cons w ws ih => simp [isGainedEv, ih]

/-- The focus-path and notification facts of a completed `updateFocus` run,
expressed on the raw loop outputs: the new path is the ancestor chain,
every previously focused path entry gets exactly one focus-lost
notification, and the focus-gained notifications are exactly the new path
in root-to-leaf order. -/
theorem focus_trace_props (env : Env) (fuelW : Nat) (s : ScreenState) (w : Nat)
    (hfoc : ∀ x ∈ s.focusPath, x ∈ s.focused)
    (hc : (walkUp env.parent env.isWindow fuelW (some w) none).2.2 = true) :
    IsAncestorChain env.parent w
        (walkUp env.parent env.isWindow fuelW (some w) none).1 ∧
      (∀ x ∈ s.focusPath,
        ((fireFocusLost s.focused s.focusPath).2 ++
          (fireFocusGained (fireFocusLost s.focused s.focusPath).1
            (walkUp env.parent env.isWindow fuelW (some w) none).1.reverse).2).count
          (Ev.focusLost x) = 1) ∧
      ((fireFocusLost s.focused s.focusPath).2 ++
        (fireFocusGained (fireFocusLost s.focused s.focusPath).1
          (walkUp env.parent env.isWindow fuelW (some w) none).1.reverse).2).filter
        isGainedEv =
        (walkUp env.parent env.isWindow fuelW (some w) none).1.reverse.map
          Ev.focusGained := by
  refine ⟨walkUp_chain _ _ _ _ _ hc, ?_, ?_⟩
  · intro x hx
    rw [List.count_append, fireFocusLost_count, fireFocusGained_trace,
      count_focusLost_map_gained]
    simp [hfoc x hx, hx]
  · rw [List.filter_append, fireFocusLost_no_gained, fireFocusGained_trace,
      filter_gained_map_gained]
    simp

/-- Claim C1: under the Screen invariant that every widget of the current
focus path has its focused flag set, a completed `updateFocus(w)` leaves
`focusPath` equal to the ancestor chain of `w` (leaf first), sends exactly
one focus-lost notification to every widget of the old path that is not in
the new path, and sends the focus-gained notifications exactly to the new
path in root-to-leaf order. -/
theorem updateFocus_focus_contract (env : Env) (fuelW fuelM : Nat)
    (s s2 : ScreenState) (tr : List Ev) (w : Nat)
    (hfoc : ∀ x ∈ s.focusPath, x ∈ s.focused)
    (hrun : updateFocus env fuelW fuelM s (some w) = some (s2, tr)) :
    IsAncestorChain env.parent w s2.focusPath ∧
      (∀ x ∈ s.focusPath, x ∉ s2.focusPath → tr.count (Ev.focusLost x) = 1) ∧
      tr.filter isGainedEv = s2.focusPath.reverse.map Ev.focusGained := by
  have key := focus_trace_props env fuelW s w hfoc
  simp only [updateFocus] at hrun
  split at hrun
  · rename_i hc
    have k := key hc
    split at hrun
    · simp only [Option.some.injEq, Prod.mk.injEq] at hrun
      obtain ⟨hS, hT⟩ := hrun
      subst hS; subst hT
      exact ⟨k.1, fun x hx _ => k.2.1 x hx, k.2.2⟩
    · split at hrun
      · exact absurd hrun (by simp)
      · simp only [Option.some.injEq, Prod.mk.injEq] at hrun
        obtain ⟨hS, hT⟩ := hrun
        subst hS; subst hT
        exact ⟨k.1, fun x hx _ => k.2.1 x hx, k.2.2⟩
  · exact absurd hrun (by simp)

/-! ### Lemmas about the window-stacking fixed point -/

/-- Filtering a value out leaves none of its occurrences. -/
theorem count_filter_ne_self (w : Nat) (cs : List Nat) :
    (cs.filter (fun c => c ≠ w)).count w = 0 :=
  List.count_eq_zero.mpr (fun h => by simp [List.mem_filter] at h)

/-- After `bringToEnd w`, the moved id occurs exactly once. -/
theorem bringToEnd_count_self (w : Nat) (cs : List Nat) :
    (bringToEnd w cs).count w = 1 := by
  rw [bringToEnd, List.count_append, count_filter_ne_self]
  simp

/-- `bringToEnd p` does not change the multiplicity of other ids. -/
theorem bringToEnd_count_other (w p : Nat) (hx : w ≠ p) (cs : List Nat) :
    (bringToEnd p cs).count w = cs.count w := by
  have hp : (fun c => decide (c ≠ p)) w = true := by simp [hx]
  simp [bringToEnd, List.count_append, List.count_filter hp, hx]

/-- Both stacking functions preserve the fact that `w` occurs exactly once
in the child list. -/
theorem mwtf_count_one (owner : Nat → Option Nat) (w : Nat) :
    ∀ fuel : Nat,
      (∀ p cs cs2, moveWindowToFront owner fuel p cs = some cs2 →
        cs.count w = 1 → cs2.count w = 1) ∧
      (∀ p cs cs2, mwtfLoop owner fuel p cs = some cs2 →
        cs.count w = 1 → cs2.count w = 1) := by
  intro fuel
  induction fuel with
  | zero =>
    constructor <;> intro p cs cs2 h hc <;>
      simp [moveWindowToFront, mwtfLoop] at h
  | succ n ih =>
    constructor
    · intro p cs cs2 h hc
      simp only [moveWindowToFront] at h
      have hb : (bringToEnd p cs).count w = 1 := by
        by_cases hp : w = p
        · subst hp; exact bringToEnd_count_self w cs
        · rw [bringToEnd_count_other w p hp]; exact hc
      exact ih.2 p _ cs2 h hb
    · intro p cs cs2 h hc
      simp only [mwtfLoop] at h
      split at h
      · cases h; exact hc
      · rename_i q hfo
        split at h
        · exact absurd h (by simp)
        · rename_i cs3 hq
          exact ih.2 p cs3 cs2 h (ih.1 q cs cs3 hq hc)

/-- When the offending-popup scan comes back empty, no element at an index
preceding `base` is a popup owned by `w`. -/
theorem findOffender_none (owner : Nat → Option Nat) (w base : Nat) :
    ∀ (l : List Nat) (i : Nat), findOffender owner w base i l = none →
      ∀ k (hk : k < l.length), owner (l.get ⟨k, hk⟩) = some w →
        ¬(i + k < base) := by
  intro l
  induction l with
  | nil => intro i _ k hk; simp at hk
  | cons c t ih =>
    intro i h k hk hko
    simp only [findOffender] at h
    by_cases hcond : owner c = some w ∧ i < base
    · rw [if_pos hcond] at h; exact absurd h (by simp)
    · rw [if_neg hcond] at h
      cases k with
      | zero => intro hlt; exact hcond ⟨hko, by omega⟩
      | succ k2 =>
        intro hlt
        exact ih (i + 1) h k2 (by simpa using hk) hko (by omega)

/-- A successful run of the stacking loop ends with an empty offender scan
on the final list. -/
theorem mwtfLoop_exit (owner : Nat → Option Nat) (w : Nat) :
    ∀ fuel cs cs2, mwtfLoop owner fuel w cs = some cs2 →
      findOffender owner w (lastIndexOf w cs2) 0 cs2 = none := by
  intro fuel
  induction fuel with
  | zero => intro cs cs2 h; simp [mwtfLoop] at h
  | succ n ih =>
    intro cs cs2 h
    simp only [mwtfLoop] at h
    split at h
    · rename_i hfo
      cases h; exact hfo
    · split at h
      · exact absurd h (by simp)
      · rename_i cs3 hq
        exact ih cs3 cs2 h

/-- A list in which `w` occurs exactly once splits uniquely around it. -/
theorem count_one_split (w : Nat) : ∀ l : List Nat, l.count w = 1 →
    ∃ u v, l = u ++ w :: v ∧ w ∉ u ∧ w ∉ v := by
  intro l
  induction l with
  | nil => intro h; simp at h
  | cons a t ih =>
    intro h
    by_cases ha : a = w
    · subst ha
      have ht : t.count a = 0 := by simp [List.count_cons] at h; omega
      exact ⟨[], t, by simp, by simp, List.count_eq_zero.mp ht⟩
    · have ht : t.count w = 1 := by simpa [List.count_cons, ha] using h
      obtain ⟨u, v, hl, hu, hv⟩ := ih ht
      refine ⟨a :: u, v, by simp [hl], ?_, hv⟩
      simp only [List.mem_cons, not_or]
      exact ⟨fun hw => ha hw.symm, hu⟩

/-- The `baseIndex` loop ignores lists not containing `w`. -/
theorem lastIndexFrom_not_mem (w : Nat) :
    ∀ (l : List Nat) (b i : Nat), w ∉ l → lastIndexFrom w b i l = b := by
  intro l
  induction l with
  | nil => intro b i _; rfl
  | cons c t ih =>
    intro b i h
    simp only [List.mem_cons, not_or] at h
    simp only [lastIndexFrom]
    rw [if_neg (fun hc => h.1 hc.symm)]
    exact ih _ _ h.2

/-- The `baseIndex` loop processes an append left to right. -/
theorem lastIndexFrom_append (w : Nat) :
    ∀ (l1 l2 : List Nat) (b i : Nat),
      lastIndexFrom w b i (l1 ++ l2) =
        lastIndexFrom w (lastIndexFrom w b i l1) (i + l1.length) l2 := by
  intro l1
  induction l1 with
  | nil => intro l2 b i; simp [lastIndexFrom]
  | cons c t ih =>
    intro l2 b i
    simp only [List.cons_append, lastIndexFrom, List.length_cons, List.append_eq]
    rw [ih]
    have harith : i + 1 + t.length = i + (t.length + 1) := by omega
    rw [harith]

/-- With a unique occurrence, `baseIndex` is the index of that occurrence. -/
theorem lastIndexOf_split (w : Nat) (u v : List Nat) (hu : w ∉ u) (hv : w ∉ v) :
    lastIndexOf w (u ++ w :: v) = u.length := by
  rw [lastIndexOf, lastIndexFrom_append, lastIndexFrom_not_mem w u 0 0 hu]
  have hstep : lastIndexFrom w 0 (0 + u.length) (w :: v) =
      lastIndexFrom w (if w = w then 0 + u.length else 0) (0 + u.length + 1) v := rfl
  rw [hstep, lastIndexFrom_not_mem w v _ _ hv]
  simp

/-- In a duplicate-free list every member has multiplicity one. -/
theorem count_eq_one_of_nodup_mem (w : Nat) :
    ∀ l : List Nat, l.Nodup → w ∈ l → l.count w = 1 := by
  intro l
  induction l with
  | nil => intro _ h; simp at h
  | cons a t ih =>
    intro hnd hm
    rw [List.nodup_cons] at hnd
    by_cases ha : a = w
    · subst ha
      have : t.count a = 0 := List.count_eq_zero.mpr hnd.1
      simp [List.count_cons, this]
    · have hmt : w ∈ t := by
        rcases List.mem_cons.mp hm with he | ht
        · exact absurd he.symm ha
        · exact ht
      simp [List.count_cons, ha, ih hnd.2 hmt]

/-- `takeWhile (· ≠ x)` recovers the prefix before the first occurrence. -/
theorem takeWhile_prefix_eq (x : Nat) :
    ∀ (u v : List Nat), x ∉ u →
      (u ++ x :: v).takeWhile (fun c => c ≠ x) = u := by
  intro u
  induction u with
  | nil => intro v _; simp [List.takeWhile_cons]
  | cons a u2 ih =>
    intro v h
    simp only [List.mem_cons, not_or] at h
    simp only [List.cons_append, List.takeWhile_cons]
    have hax : a ≠ x := fun he => h.1 he.symm
    rw [if_pos (decide_eq_true hax)]
    rw [ih v h.2]

/-- Filtering out an absent value changes nothing. -/
theorem filter_ne_of_not_mem (z : Nat) (l : List Nat) (h : z ∉ l) :
    l.filter (fun c => c ≠ z) = l :=
  List.filter_eq_self.mpr (fun _ ha => decide_eq_true (fun he => h (he ▸ ha)))

/-- Filtering a present value out of a duplicate-free list drops exactly
one element. -/
theorem length_filter_ne_of_nodup_mem (q : Nat) :
    ∀ l : List Nat, l.Nodup → q ∈ l →
      (l.filter (fun c => c ≠ q)).length + 1 = l.length := by
  intro l
  induction l with
  | nil => intro _ h; simp at h
  | cons a t ih =>
    intro hnd hm
    rw [List.nodup_cons] at hnd
    by_cases ha : a = q
    · subst ha
      rw [List.filter_cons, if_neg (by simp)]
      rw [filter_ne_of_not_mem a t hnd.1]
      simp
    · have hmt : q ∈ t := by
        rcases List.mem_cons.mp hm with he | ht
        · exact absurd he.symm ha
        · exact ht
      rw [List.filter_cons, if_pos (decide_eq_true ha)]
      simp only [List.length_cons]
      rw [← ih hnd.2 hmt]

/-- `bringToEnd` preserves freedom from duplicates. -/
theorem bringToEnd_nodup (w : Nat) (cs : List Nat) (h : cs.Nodup) :
    (bringToEnd w cs).Nodup := by
  rw [bringToEnd]
  refine List.Nodup.append (h.filter _) (List.nodup_singleton w) ?_
  intro a ha hb
  have h1 : a ≠ w := by
    have := (List.mem_filter.mp ha).2
    simpa using this
  have h2 : a = w := by simpa using hb
  exact h1 h2

/-- `bringToEnd` keeps every element of the list. -/
theorem bringToEnd_mem (w x : Nat) (cs : List Nat) (h : x ∈ cs) :
    x ∈ bringToEnd w cs := by
  rw [bringToEnd]
  by_cases hx : x = w
  · subst hx; simp
  · exact List.mem_append_left _ (List.mem_filter.mpr ⟨h, decide_eq_true hx⟩)

/-- The moved element is always present afterwards. -/
theorem bringToEnd_mem_self (w : Nat) (cs : List Nat) : w ∈ bringToEnd w cs := by
  rw [bringToEnd]; simp

/-- Moving a present element of a duplicate-free list keeps the length. -/
theorem bringToEnd_length_mem (w : Nat) (cs : List Nat) (hm : w ∈ cs)
    (hnd : cs.Nodup) : (bringToEnd w cs).length = cs.length := by
  rw [bringToEnd, List.length_append]
  have h1 := length_filter_ne_of_nodup_mem w cs hnd hm
  simp only [List.length_singleton]
  omega

/-- A successful offender scan returns a popup of `w` located at an index
(counted from the scan's starting offset) preceding `base`. -/
theorem findOffender_some (owner : Nat → Option Nat) (w base : Nat) :
    ∀ (l : List Nat) (i p : Nat), findOffender owner w base i l = some p →
      owner p = some w ∧
        ∃ k, ∃ hk : k < l.length, l.get ⟨k, hk⟩ = p ∧ i + k < base := by
  intro l
  induction l with
  | nil => intro i p h; simp [findOffender] at h
  | cons c t ih =>
    intro i p h
    simp only [findOffender] at h
    by_cases hc : owner c = some w ∧ i < base
    · rw [if_pos hc] at h
      injection h with h
      subst h
      exact ⟨hc.1, 0, by simp, rfl, by omega⟩
    · rw [if_neg hc] at h
      obtain ⟨ho, k, hk, hg, hb⟩ := ih (i + 1) p h
      refine ⟨ho, k + 1, by simpa using hk, ?_, by omega⟩
      exact hg

/-- The per-widget child-ownership facts relevant to window `w`: the popups
of `w` that currently sit before `w`'s (unique) position in the child
list. -/
def offList (owner : Nat → Option Nat) (w : Nat) (cs : List Nat) : List Nat :=
  (cs.takeWhile (fun c => c ≠ w)).filter (fun c => owner c = some w)

/-- On a duplicate-free list containing `w`, a found offender is a popup of
`w` sitting in the prefix before `w`. -/
theorem findOffender_offList (owner : Nat → Option Nat) (x : Nat)
    (cs : List Nat) (q : Nat) (hnd : cs.Nodup) (hx : x ∈ cs)
    (hfo : findOffender owner x (lastIndexOf x cs) 0 cs = some q) :
    owner q = some x ∧ q ∈ offList owner x cs := by
  obtain ⟨u, v, hsplit, hu, hv⟩ :=
    count_one_split x cs (count_eq_one_of_nodup_mem x cs hnd hx)
  subst hsplit
  rw [lastIndexOf_split x u v hu hv] at hfo
  obtain ⟨ho, k, hk, hg, hlt⟩ := findOffender_some owner x u.length _ 0 q hfo
  refine ⟨ho, ?_⟩
  have hk2 : k < u.length := by omega
  have hget : (u ++ x :: v).get ⟨k, hk⟩ = u.get ⟨k, hk2⟩ := by
    rw [List.get_eq_getElem, List.get_eq_getElem]
    exact List.getElem_append_left hk2
  have hqu : q ∈ u := by
    rw [hget] at hg
    exact hg ▸ List.get_mem u k hk2
  rw [offList, takeWhile_prefix_eq x u v hu]
  exact List.mem_filter.mpr ⟨hqu, decide_eq_true ho⟩

/-- Both stacking functions preserve freedom from duplicates and the list
length (the moved subjects are always present). -/
theorem mwtf_preserve (owner : Nat → Option Nat) :
    ∀ fuel : Nat,
      (∀ p cs cs2, moveWindowToFront owner fuel p cs = some cs2 → p ∈ cs →
        cs.Nodup → cs2.Nodup ∧ cs2.length = cs.length) ∧
      (∀ p cs cs2, mwtfLoop owner fuel p cs = some cs2 →
        cs.Nodup → cs2.Nodup ∧ cs2.length = cs.length) := by
  intro fuel
  induction fuel with
  | zero =>
    constructor <;> intro p cs cs2 h <;>
      simp [moveWindowToFront, mwtfLoop] at h
  | succ n ih =>
    constructor
    · intro p cs cs2 h hp hnd
      simp only [moveWindowToFront] at h
      have := ih.2 p _ cs2 h (bringToEnd_nodup p cs hnd)
      rw [bringToEnd_length_mem p cs hp hnd] at this
      exact this
    · intro p cs cs2 h hnd
      simp only [mwtfLoop] at h
      split at h
      · cases h; exact ⟨hnd, rfl⟩
      · rename_i q hfo
        split at h
        · exact absurd h (by simp)
        · rename_i cs3 hq
          obtain ⟨ho, k, hk, hg, hb⟩ :=
            findOffender_some owner p (lastIndexOf p cs) cs 0 q hfo
          have hqmem : q ∈ cs := hg ▸ List.get_mem cs k hk
          have h3 := ih.1 q cs cs3 hq hqmem hnd
          have h4 := ih.2 p cs3 cs2 h h3.1
          exact ⟨h4.1, by omega⟩

/-- Every element of a duplicate-free list survives a completed
`moveWindowToFront`. -/
theorem mwtf_mem (owner : Nat → Option Nat) (fuel p : Nat) (cs cs2 : List Nat)
    (x : Nat) (h : moveWindowToFront owner fuel p cs = some cs2)
    (hnd : cs.Nodup) (hx : x ∈ cs) : x ∈ cs2 := by
  have h1 := (mwtf_count_one owner x fuel).1 p cs cs2 h
    (count_eq_one_of_nodup_mem x cs hnd hx)
  exact List.count_pos_iff.mp (by omega)

/-- Moving a different child to the back removes exactly that child from
the popups-of-`x`-before-`x` list. -/
theorem bringToEnd_offList (owner : Nat → Option Nat) (x y : Nat) (hyx : y ≠ x)
    (u v : List Nat) (hu : x ∉ u) :
    offList owner x (bringToEnd y (u ++ x :: v)) =
      (offList owner x (u ++ x :: v)).filter (fun c => c ≠ y) := by
  have hxy : x ≠ y := fun he => hyx he.symm
  have hstep : bringToEnd y (u ++ x :: v) =
      (u.filter (fun c => c ≠ y)) ++
        x :: (v.filter (fun c => c ≠ y) ++ [y]) := by
    rw [bringToEnd, List.filter_append, List.filter_cons,
      if_pos (decide_eq_true hxy), List.append_assoc]
    rfl
  have hu2 : x ∉ u.filter (fun c => c ≠ y) :=
    fun hmem => hu (List.mem_filter.mp hmem).1
  rw [hstep, offList, takeWhile_prefix_eq x _ _ hu2,
    offList, takeWhile_prefix_eq x u v hu]
  rw [List.filter_filter, List.filter_filter]
  congr 1
  funext a
  exact Bool.and_comm _ _

/-- A completed move of a subject ranked below `x` removes exactly that
subject from `x`'s offender list, and the surrounding fixed-point loop on
such a subject leaves `x`'s offender list unchanged (using that no moved
subject can itself be a popup of `x`). -/
theorem mwtf_offList (owner : Nat → Option Nat) (μ : Nat → Nat)
    (hμ : ∀ p v, owner p = some v → μ p < μ v) (x : Nat) :
    ∀ fuel : Nat,
      (∀ y cs cs2, moveWindowToFront owner fuel y cs = some cs2 → μ y < μ x →
        x ∈ cs → cs.Nodup →
        offList owner x cs2 = (offList owner x cs).filter (fun c => c ≠ y)) ∧
      (∀ y cs cs2, mwtfLoop owner fuel y cs = some cs2 → μ y < μ x →
        x ∈ cs → cs.Nodup → offList owner x cs2 = offList owner x cs) := by
  intro fuel
  induction fuel with
  | zero =>
    constructor <;> intro y cs cs2 h <;>
      simp [moveWindowToFront, mwtfLoop] at h
  | succ n ih =>
    constructor
    · intro y cs cs2 h hlt hx hnd
      simp only [moveWindowToFront] at h
      have hyx : y ≠ x := fun he => by rw [he] at hlt; omega
      obtain ⟨u, v, hsplit, hu, hv⟩ :=
        count_one_split x cs (count_eq_one_of_nodup_mem x cs hnd hx)
      subst hsplit
      have hA := bringToEnd_offList owner x y hyx u v hu
      have hloop := ih.2 y _ cs2 h hlt
        (bringToEnd_mem y x _ hx) (bringToEnd_nodup y _ hnd)
      rw [hloop, hA]
    · intro y cs cs2 h hlt hx hnd
      simp only [mwtfLoop] at h
      split at h
      · cases h; rfl
      · rename_i q hfo
        split at h
        · exact absurd h (by simp)
        · rename_i cs3 hq
          obtain ⟨ho, k, hk, hg, hb⟩ :=
            findOffender_some owner y (lastIndexOf y cs) cs 0 q hfo
          have hqmem : q ∈ cs := hg ▸ List.get_mem cs k hk
          have hμq : μ q < μ x := lt_trans (hμ q y ho) hlt
          have hinner := ih.1 q cs cs3 hq hμq hx hnd
          have hyx : y ≠ x := fun he => by rw [he] at hlt; omega
          have hqnot : q ∉ offList owner x cs := by
            intro hmem
            have h1 := (List.mem_filter.mp hmem).2
            have h2 : owner q = some x := by simpa using h1
            rw [ho] at h2
            exact hyx (by injection h2)
          rw [filter_ne_of_not_mem q _ hqnot] at hinner
          have hx3 : x ∈ cs3 := mwtf_mem owner n q cs cs3 x hq hnd hx
          have hnd3 : cs3.Nodup :=
            ((mwtf_preserve owner n).1 q cs cs3 hq hqmem hnd).1
          rw [ih.2 y cs3 cs2 h hlt hx3 hnd3, hinner]

/-- One unfolding step of the stacking entry point. -/
theorem mwtf_succ (owner : Nat → Option Nat) (fuel w : Nat) (cs : List Nat) :
    moveWindowToFront owner (fuel + 1) w cs =
      mwtfLoop owner fuel w (bringToEnd w cs) := by
  simp only [moveWindowToFront]

/-- When the scan finds an offender whose recursive move runs out of fuel,
the loop runs out of fuel as well. -/
theorem mwtfLoop_succ_offender (owner : Nat → Option Nat) (fuel w : Nat)
    (cs : List Nat) (p : Nat)
    (hfo : findOffender owner w (lastIndexOf w cs) 0 cs = some p)
    (hmw : moveWindowToFront owner fuel p cs = none) :
    mwtfLoop owner (fuel + 1) w cs = none := by
  simp only [mwtfLoop, hfo, hmw]

/-- Unfolding of the loop when the scan comes back empty. -/
theorem mwtfLoop_succ_none (owner : Nat → Option Nat) (fuel w : Nat)
    (cs : List Nat)
    (hfo : findOffender owner w (lastIndexOf w cs) 0 cs = none) :
    mwtfLoop owner (fuel + 1) w cs = some cs := by
  simp only [mwtfLoop, hfo]

/-- Unfolding of the loop when the scan finds an offender. -/
theorem mwtfLoop_succ_eq (owner : Nat → Option Nat) (fuel w : Nat)
    (cs : List Nat) (q : Nat)
    (hfo : findOffender owner w (lastIndexOf w cs) 0 cs = some q) :
    mwtfLoop owner (fuel + 1) w cs =
      match moveWindowToFront owner fuel q cs with
      | none => none
      | some cs2 => mwtfLoop owner fuel w cs2 := by
  simp only [mwtfLoop, hfo]

/-- Termination of the fixed-point loop: with enough fuel (an iteration per
remaining offender, plus the fuel the recursive moves need), the loop
completes.  `hS` supplies termination of the recursive move for every popup
of `x`, as provided by the rank induction of `mwtf_total_aux`. -/
theorem mwtfLoop_total (owner : Nat → Option Nat) (μ : Nat → Nat)
    (hμ : ∀ p v, owner p = some v → μ p < μ v) (x L : Nat)
    (hS : ∀ q cs, owner q = some x → q ∈ cs → cs.Nodup → cs.length = L →
      ∀ f, μ x * (L + 2) ≤ f →
        (moveWindowToFront owner f q cs).isSome = true) :
    ∀ k : Nat, ∀ (cs : List Nat) (f : Nat), x ∈ cs → cs.Nodup →
      cs.length = L → (offList owner x cs).length ≤ k →
      k + 1 + μ x * (L + 2) ≤ f →
      (mwtfLoop owner f x cs).isSome = true := by
  intro k
  induction k with
  | zero =>
    intro cs f hx hnd hL hoff hf
    obtain ⟨f2, rfl⟩ : ∃ f2, f = f2 + 1 := ⟨f - 1, by omega⟩
    cases hfo : findOffender owner x (lastIndexOf x cs) 0 cs with
    | none => rw [mwtfLoop_succ_none owner f2 x cs hfo]; rfl
    | some q =>
      exfalso
      have hql := findOffender_offList owner x cs q hnd hx hfo
      have := List.length_pos_of_mem hql.2
      omega
  | succ k ih =>
    intro cs f hx hnd hL hoff hf
    obtain ⟨f2, rfl⟩ : ∃ f2, f = f2 + 1 := ⟨f - 1, by omega⟩
    cases hfo : findOffender owner x (lastIndexOf x cs) 0 cs with
    | none => rw [mwtfLoop_succ_none owner f2 x cs hfo]; rfl
    | some q =>
      rw [mwtfLoop_succ_eq owner f2 x cs q hfo]
      have hql := findOffender_offList owner x cs q hnd hx hfo
      have hoq : owner q = some x := hql.1
      have hqoff : q ∈ offList owner x cs := hql.2
      have hqmem : q ∈ cs := by
        have h1 := List.mem_filter.mp hqoff
        exact (List.takeWhile_sublist _).subset h1.1
      have hμq : μ q < μ x := hμ q x hoq
      have hfin : (moveWindowToFront owner f2 q cs).isSome = true :=
        hS q cs hoq hqmem hnd hL f2 (by omega)
      obtain ⟨cs3, hq⟩ := Option.isSome_iff_exists.mp hfin
      rw [hq]
      have hx3 : x ∈ cs3 := mwtf_mem owner f2 q cs cs3 x hq hnd hx
      have hpres := (mwtf_preserve owner f2).1 q cs cs3 hq hqmem hnd
      have hoff3 : offList owner x cs3 =
          (offList owner x cs).filter (fun c => c ≠ q) :=
        (mwtf_offList owner μ hμ x f2).1 q cs cs3 hq hμq hx hnd
      have hnodOff : (offList owner x cs).Nodup :=
        ((List.takeWhile_sublist _).nodup hnd).filter _
      have hlen3 : (offList owner x cs3).length ≤ k := by
        rw [hoff3]
        have := length_filter_ne_of_nodup_mem q (offList owner x cs)
          hnodOff hqoff
        omega
      exact ih cs3 f2 hx3 hpres.1 (by omega) hlen3 (by omega)

/-- Termination of `moveWindowToFront` for a ranked (acyclic) popup
ownership relation, by strong induction on the rank of the moved window:
enough fuel makes the whole recursion complete. -/
theorem mwtf_total_aux (owner : Nat → Option Nat) (μ : Nat → Nat)
    (hμ : ∀ p v, owner p = some v → μ p < μ v) :
    ∀ r : Nat, ∀ (x : Nat) (cs : List Nat), μ x ≤ r → x ∈ cs → cs.Nodup →
      ∀ fuel, (r + 1) * (cs.length + 2) ≤ fuel →
        (moveWindowToFront owner fuel x cs).isSome = true := by
  intro r
  induction r using Nat.strong_induction_on with
  | h r IH =>
    intro x cs hr hx hnd fuel hfuel
    have hfuel1 : 1 * 2 ≤ (r + 1) * (cs.length + 2) :=
      Nat.mul_le_mul (by omega) (by omega)
    obtain ⟨f, rfl⟩ : ∃ f, fuel = f + 1 := ⟨fuel - 1, by omega⟩
    rw [mwtf_succ]
    have hx1 : x ∈ bringToEnd x cs := bringToEnd_mem_self x cs
    have hnd1 : (bringToEnd x cs).Nodup := bringToEnd_nodup x cs hnd
    have hL1 : (bringToEnd x cs).length = cs.length :=
      bringToEnd_length_mem x cs hx hnd
    refine mwtfLoop_total owner μ hμ x cs.length ?_
      ((offList owner x (bringToEnd x cs)).length) (bringToEnd x cs) f
      hx1 hnd1 hL1 (le_refl _) ?_
    · intro q cs2 hq hqm hnd2 hL2 f2 hf2
      have hμq : μ q < μ x := hμ q x hq
      refine IH (μ q) (by omega) q cs2 (le_refl _) hqm hnd2 f2 ?_
      rw [hL2]
      calc (μ q + 1) * (cs.length + 2) ≤ μ x * (cs.length + 2) :=
            Nat.mul_le_mul_right _ (by omega)
        _ ≤ f2 := hf2
    · have hoffb : (offList owner x (bringToEnd x cs)).length ≤ cs.length := by
        have h1 : (offList owner x (bringToEnd x cs)).length ≤
            (bringToEnd x cs).length :=
          le_trans (List.length_filter_le _ _)
            (List.takeWhile_sublist _).length_le
        omega
      have hexp : (r + 1) * (cs.length + 2) =
          r * (cs.length + 2) + cs.length + 2 := by ring
      have hmono : μ x * (cs.length + 2) ≤ r * (cs.length + 2) :=
        Nat.mul_le_mul_right _ hr
      omega

/-- Two popups recorded as each other's parent window. -/
def cycOwner : Nat → Option Nat :=
  fun n => if n = 1 then some 2 else if n = 2 then some 1 else none

/-- With the cyclic ownership `cycOwner`, the stacking recursion never
finishes, whatever the fuel: moving 1 to the front puts 2 (a popup of 1)
before 1, fixing 2 puts 1 (a popup of 2) before 2, and so on forever. -/
theorem cyc_diverges : ∀ fuel : Nat,
    mwtfLoop cycOwner fuel 1 [2, 1] = none ∧
      mwtfLoop cycOwner fuel 2 [1, 2] = none ∧
      moveWindowToFront cycOwner fuel 1 [1, 2] = none ∧
      moveWindowToFront cycOwner fuel 2 [2, 1] = none := by
  intro fuel
  induction fuel with
  | zero => exact ⟨rfl, rfl, rfl, rfl⟩
  | succ n ih =>
    refine ⟨?_, ?_, ?_, ?_⟩
    · exact mwtfLoop_succ_offender cycOwner n 1 [2, 1] 2 (by decide) ih.2.2.2
    · exact mwtfLoop_succ_offender cycOwner n 2 [1, 2] 1 (by decide) ih.2.2.1
    · rw [mwtf_succ, show bringToEnd 1 [1, 2] = [2, 1] from rfl]; exact ih.1
    · rw [mwtf_succ, show bringToEnd 2 [2, 1] = [1, 2] from rfl]; exact ih.2.1

/-! ### Concrete environments and states used by witnesses -/

/-- A trivial environment: no windows, no popups, hit test always misses
(returns the null fallback), all collaborator handlers consume. -/
def baseEnv : Env where
  screenId := 0
  parent := fun _ => none
  isWindow := fun _ => false
  modal := fun _ => false
  contains := fun _ _ => false
  findWidget := fun _ => none
  widgetCursor := fun _ => 0
  parentAbsPos := fun _ => (0, 0)
  popupOwner := fun _ => none
  buttonHandler := fun _ _ _ _ => true
  scrollHandler := fun _ _ => true
  resizeHandler := fun _ => true

/-- A quiescent Screen state. -/
def baseState : ScreenState where
  mouseState := 0
  modifiers := 0
  mousePos := (0, 0)
  dragActive := false
  dragWidget := none
  focusPath := []
  focused := []
  lastInteraction := 0
  cursor := 0
  fbSize := (10, 10)
  size := (10, 10)
  children := []

/-- Environment with a modal window 3 that never contains the mouse. -/
def modalEnv : Env :=
  { baseEnv with
    isWindow := fun n => n == 3
    modal := fun n => n == 3 }

/-- State focused on widget 7 inside modal window 3 under screen 0. -/
def modalState : ScreenState :=
  { baseState with
    mouseState := 5
    modifiers := 2
    mousePos := (50, 50)
    focusPath := [7, 3, 0]
    focused := [7, 3, 0]
    cursor := 1
    children := [3] }

/-- Environment with the parent chain 2 → 1 → 0 in which widget 1 is a
Window, used to exercise a focus change. -/
def chainEnv : Env :=
  { baseEnv with
    parent := fun n => if n = 2 then some 1 else if n = 1 then some 0 else none
    isWindow := fun n => n == 1 }

/-- State focused on the stray widget 9 before the focus change. -/
def chainState : ScreenState :=
  { baseState with focusPath := [9], focused := [9], children := [1, 7] }

/-- The state `updateFocus chainEnv 3 3 chainState (some 2)` produces. -/
def chainResult : ScreenState :=
  { chainState with focused := [2, 1, 0], focusPath := [2, 1, 0], children := [7, 1] }

/-- The notification trace `updateFocus chainEnv 3 3 chainState (some 2)`
produces. -/
def chainTrace : List Ev :=
  [Ev.focusLost 9, Ev.focusGained 0, Ev.focusGained 1, Ev.focusGained 2]

/-! ### Claim theorems -/

/-- Witness for C1: a concrete completed `updateFocus` run onto widget 2. -/
theorem updateFocus_focus_contract_witness :
    (∀ x ∈ chainState.focusPath, x ∈ chainState.focused) ∧
      (IsAncestorChain chainEnv.parent 2 chainResult.focusPath ∧
        (∀ x ∈ chainState.focusPath, x ∉ chainResult.focusPath →
          chainTrace.count (Ev.focusLost x) = 1) ∧
        chainTrace.filter isGainedEv =
          chainResult.focusPath.reverse.map Ev.focusGained) :=
  ⟨by decide,
   updateFocus_focus_contract chainEnv 3 3 chainState chainResult chainTrace 2
     (by decide) (by decide)⟩

/-- Claim C7, counterexample: on the finite configuration where children 1
and 2 are popups recorded as each other's parent window,
`moveWindowToFront(1)` never finishes — no amount of fuel completes the
recursion, mirroring the unbounded mutual recursion of the C++ code. -/
theorem moveWindowToFront_cycle_counterexample :
    ¬ ∃ fuel cs2, moveWindowToFront cycOwner fuel 1 [1, 2] = some cs2 := by
  rintro ⟨fuel, cs2, h⟩
  rw [(cyc_diverges fuel).2.2.1] at h
  exact absurd h (by simp)

/-- Claim C7 (amended): `moveWindowToFront(win)` terminates on every finite
child list whose popup parentWindow references are acyclic, witnessed by a
rank function that decreases from a popup to its parent window; each
corrective move strictly shrinks the list of offending popups, so the
fixed-point scan ends.  (With a parentWindow cycle the recursion diverges,
see the counterexample.) -/
theorem moveWindowToFront_terminates (owner : Nat → Option Nat) (μ : Nat → Nat)
    (hμ : ∀ p v, owner p = some v → μ p < μ v)
    (w : Nat) (cs : List Nat) (hnd : cs.Nodup) :
    ∃ fuel cs2, moveWindowToFront owner fuel w cs = some cs2 := by
  have hx1 : w ∈ bringToEnd w cs := bringToEnd_mem_self w cs
  have hnd1 : (bringToEnd w cs).Nodup := bringToEnd_nodup w cs hnd
  have hloop := mwtfLoop_total owner μ hμ w (bringToEnd w cs).length
    (fun q cs2 hq hqm hnd2 hL2 f2 hf2 => by
      have hμq : μ q < μ w := hμ q w hq
      refine mwtf_total_aux owner μ hμ (μ q) q cs2 (le_refl _) hqm hnd2 f2 ?_
      rw [hL2]
      calc (μ q + 1) * ((bringToEnd w cs).length + 2) ≤
            μ w * ((bringToEnd w cs).length + 2) :=
            Nat.mul_le_mul_right _ (by omega)
        _ ≤ f2 := hf2)
    ((offList owner w (bringToEnd w cs)).length) (bringToEnd w cs)
    ((offList owner w (bringToEnd w cs)).length + 1 +
      μ w * ((bringToEnd w cs).length + 2))
    hx1 hnd1 rfl (le_refl _) (le_refl _)
  obtain ⟨cs2, h⟩ := Option.isSome_iff_exists.mp hloop
  exact ⟨(offList owner w (bringToEnd w cs)).length + 1 +
    μ w * ((bringToEnd w cs).length + 2) + 1, cs2, by rw [mwtf_succ]; exact h⟩

/-- Claim C2, counterexample: with focus path `[0, 1, 2]` (leaf 0, window
1, Screen 2), all widgets focused and all consuming, the code delivers the
key event to widget 1 (the entry next to the root) and stops, while the
claimed leaf-outward order would deliver it to the leaf 0.  Refutes the
claimed delivery order at an explicit input. -/
theorem keyboard_order_counterexample :
    keyboardEvent (fun _ => true) [0, 1, 2] [0, 1, 2] ≠
        keyboardEventLeafOutward (fun _ => true) [0, 1, 2] [0, 1, 2] ∧
      (keyboardEvent (fun _ => true) [0, 1, 2] [0, 1, 2]).2 = [1] ∧
      (keyboardEventLeafOutward (fun _ => true) [0, 1, 2] [0, 1, 2]).2 = [0] := by
  decide

/-- Claim C2 (amended): a key (or character) callback records the
interaction time and delivers the event to the focused widgets along
`focusPath` in order from the outermost entry (root side) inward to the
leaf, excluding the last entry (the Screen itself), stopping at the first
widget that consumes it; it returns true if and only if some focused
widget along that range consumes the event. -/
theorem keyCallback_dispatch (consume : Nat → Bool) (now : Int) (s : ScreenState) :
    (keyCallbackEvent consume now s).1 =
        ((s.focusPath.dropLast.reverse.filter
            (fun w => decide (w ∈ s.focused))).any consume) ∧
      (keyCallbackEvent consume now s).2.2 =
        ((s.focusPath.dropLast.reverse.filter
            (fun w => decide (w ∈ s.focused))).take
          ((s.focusPath.dropLast.reverse.filter
              (fun w => decide (w ∈ s.focused))).findIdx consume + 1)) ∧
      (keyCallbackEvent consume now s).2.1 = { s with lastInteraction := now } := by
  have h := keyboardEvent_eq consume s.focused s.focusPath
  refine ⟨?_, ?_, rfl⟩
  · simp [keyCallbackEvent, h]
  · simp [keyCallbackEvent, h]

/-- Claim C3: when the second-from-top entry of `focusPath` is a modal
Window that does not contain the current mouse position, both the
mouse-button callback and the scroll callback return false, deliver no
event to any widget, and leave `mouseState` and `focusPath` (and the drag
state) unchanged. -/
theorem modal_suppression_no_effect (env : Env) (nowB nowS : Int)
    (s : ScreenState) (button action : Nat) (m relX relY : Int)
    (hsup : modalSuppressed env s = true) :
    (mouseButtonCallbackEvent env nowB s button action m).1 = false ∧
      (mouseButtonCallbackEvent env nowB s button action m).2.2 = [] ∧
      (mouseButtonCallbackEvent env nowB s button action m).2.1.mouseState =
        s.mouseState ∧
      (mouseButtonCallbackEvent env nowB s button action m).2.1.focusPath =
        s.focusPath ∧
      (scrollCallbackEvent env nowS s relX relY).1 = false ∧
      (scrollCallbackEvent env nowS s relX relY).2.2 = [] ∧
      (scrollCallbackEvent env nowS s relX relY).2.1.mouseState = s.mouseState ∧
      (scrollCallbackEvent env nowS s relX relY).2.1.focusPath = s.focusPath := by
  rw [mouseButton_suppressed_frame env nowB s button action m hsup,
    scroll_suppressed_frame env nowS s relX relY hsup]
  exact ⟨rfl, rfl, rfl, rfl, rfl, rfl, rfl, rfl⟩

/-- Witness for C3 at a concrete modal configuration. -/
theorem modal_suppression_no_effect_witness :
    modalSuppressed modalEnv modalState = true ∧
      ((mouseButtonCallbackEvent modalEnv 9 modalState 0 1 4).1 = false ∧
        (mouseButtonCallbackEvent modalEnv 9 modalState 0 1 4).2.2 = [] ∧
        (mouseButtonCallbackEvent modalEnv 9 modalState 0 1 4).2.1.mouseState =
          modalState.mouseState ∧
        (mouseButtonCallbackEvent modalEnv 9 modalState 0 1 4).2.1.focusPath =
          modalState.focusPath ∧
        (scrollCallbackEvent modalEnv 11 modalState 1 2).1 = false ∧
        (scrollCallbackEvent modalEnv 11 modalState 1 2).2.2 = [] ∧
        (scrollCallbackEvent modalEnv 11 modalState 1 2).2.1.mouseState =
          modalState.mouseState ∧
        (scrollCallbackEvent modalEnv 11 modalState 1 2).2.1.focusPath =
          modalState.focusPath) :=
  ⟨by decide,
   modal_suppression_no_effect modalEnv 9 11 modalState 0 1 4 1 2 (by decide)⟩

/-- Claim C10: a suppressed button event still stores the modifier argument
and the interaction time (taken before the modality check), and mutates
nothing else; a suppressed scroll event likewise updates only the
interaction time.  Stated as the exact resulting state of both callbacks. -/
theorem suppressed_updates_modifiers_time (env : Env) (nowB nowS : Int)
    (s : ScreenState) (button action : Nat) (m relX relY : Int)
    (hsup : modalSuppressed env s = true) :
    mouseButtonCallbackEvent env nowB s button action m =
        (false, { s with modifiers := m, lastInteraction := nowB }, []) ∧
      scrollCallbackEvent env nowS s relX relY =
        (false, { s with lastInteraction := nowS }, []) :=
  ⟨mouseButton_suppressed_frame env nowB s button action m hsup,
   scroll_suppressed_frame env nowS s relX relY hsup⟩

/-- Witness for C10 at a concrete modal configuration. -/
theorem suppressed_updates_modifiers_time_witness :
    modalSuppressed modalEnv modalState = true ∧
      (mouseButtonCallbackEvent modalEnv 9 modalState 0 1 4 =
          (false, { modalState with modifiers := 4, lastInteraction := 9 }, []) ∧
        scrollCallbackEvent modalEnv 11 modalState 1 2 =
          (false, { modalState with lastInteraction := 11 }, [])) :=
  ⟨by decide,
   suppressed_updates_modifiers_time modalEnv 9 11 modalState 0 1 4 1 2 (by decide)⟩

/-- Child-ownership map for the stacking witness: child 2 is a popup whose
parentWindow is window 1. -/
def owner6 : Nat → Option Nat := fun n => if n = 2 then some 1 else none

/-- Claim C6: after any completed `moveWindowToFront(win)`, every child
that is a Popup with `parentWindow == win` sits at an index strictly
greater than win's index (`lastIndexOf` is the `baseIndex` the code itself
computes; the hypothesis excludes the degenerate case of a popup recorded
as its own parent window). -/
theorem moveWindowToFront_popups_after (owner : Nat → Option Nat) (fuel w : Nat)
    (cs cs2 : List Nat) (hself : owner w ≠ some w)
    (hrun : moveWindowToFront owner fuel w cs = some cs2) :
    ∀ i (hi : i < cs2.length), owner (cs2.get ⟨i, hi⟩) = some w →
      lastIndexOf w cs2 < i := by
  intro i hi ho
  cases fuel with
  | zero => simp [moveWindowToFront] at hrun
  | succ n =>
    simp only [moveWindowToFront] at hrun
    have hcount : cs2.count w = 1 :=
      (mwtf_count_one owner w n).2 w _ cs2 hrun (bringToEnd_count_self w cs)
    have hexit := mwtfLoop_exit owner w n _ cs2 hrun
    have hno := findOffender_none owner w (lastIndexOf w cs2) cs2 0 hexit i hi ho
    rcases Nat.lt_or_ge (lastIndexOf w cs2) i with hlt | hge
    · exact hlt
    · exfalso
      have hieq : i = lastIndexOf w cs2 := by omega
      obtain ⟨u, v, hsplit, hu, hv⟩ := count_one_split w cs2 hcount
      subst hsplit
      have hbase : lastIndexOf w (u ++ w :: v) = u.length :=
        lastIndexOf_split w u v hu hv
      have hiu : i = u.length := by omega
      subst hiu
      have hgw : (u ++ w :: v).get ⟨u.length, hi⟩ = w := by
        rw [List.get_eq_getElem]
        rw [List.getElem_append_right (Nat.le_refl _)]
        simp
      rw [hgw] at ho
      exact hself ho

/-- Witness for C6: window 1 moved to the front of `[2, 1, 3]` where child
2 is a popup of window 1; the run yields `[3, 1, 2]` with the popup behind
the window. -/
theorem moveWindowToFront_popups_after_witness :
    owner6 1 ≠ some 1 ∧
      (∀ i (hi : i < ([3, 1, 2] : List Nat).length),
        owner6 (([3, 1, 2] : List Nat).get ⟨i, hi⟩) = some 1 →
          lastIndexOf 1 [3, 1, 2] < i) :=
  ⟨by decide,
   moveWindowToFront_popups_after owner6 5 1 [2, 1, 3] [3, 1, 2]
     (by decide) (by decide)⟩

/-- A rank for `owner6` that decreases from a popup to its parent window. -/
def rank6 : Nat → Nat := fun n => if n = 2 then 0 else 1

/-- Witness for C7 (amended): owner map with popup 2 owned by window 1,
ranked by a function decreasing along ownership. -/
theorem moveWindowToFront_terminates_witness :
    ∃ fuel cs2,
      moveWindowToFront owner6 fuel 1 [2, 1, 3] = some cs2 := by
  have hrk : ∀ p v, owner6 p = some v → rank6 p < rank6 v := by
    intro p v h
    by_cases hp : p = 2
    · subst hp
      simp [owner6] at h
      have hv : v = 1 := by omega
      subst hv
      decide
    · simp [owner6, hp] at h
  exact moveWindowToFront_terminates owner6 rank6 hrk 1 [2, 1, 3] (by decide)

/-- Environment whose hit test always reports widget 5. -/
def dragEnv : Env := { baseEnv with findWidget := fun _ => some 5 }

/-- State captured mid-drag of widget 5 with button 0 pressed. -/
def dragState : ScreenState :=
  { baseState with mouseState := 1, dragActive := true, dragWidget := some 5 }

/-- Claim C5, counterexample: a press of button 0 over widget 5 starts a
drag capturing widget 5; a subsequent release of a *different* button
(button 1) while the hit test still reports the captured widget ends the
drag anyway — the initiating button is never recorded, and the `else`
branch of screen.cpp lines 246-249 clears the capture on every
non-qualifying event.  The claim says the drag ends exactly on release of
the initiating button or on a differing hit widget; here neither holds,
yet the state returns to Idle. -/
theorem drag_release_any_button_counterexample :
    ((mouseButtonCallbackEvent dragEnv 1 baseState 0 1 0).2.1.dragActive = true ∧
      (mouseButtonCallbackEvent dragEnv 1 baseState 0 1 0).2.1.dragWidget = some 5) ∧
      dragEnv.findWidget baseState.mousePos = some 5 ∧
      (mouseButtonCallbackEvent dragEnv 2
          (mouseButtonCallbackEvent dragEnv 1 baseState 0 1 0).2.1 1 0 0).2.1.dragActive
        = false ∧
      (mouseButtonCallbackEvent dragEnv 2
          (mouseButtonCallbackEvent dragEnv 1 baseState 0 1 0).2.1 1 0 0).2.1.dragWidget
        = none := by
  decide

/-- Claim C5 (amended): while a drag has captured widget W, a
(non-suppressed) release of ANY button returns the drag to Idle — the
initiating button is not tracked — and when the widget hit-tested at the
release position differs from W, a release-variant mouse-button event with
pressed = false is delivered to W first (it heads the notification trace),
while a release whose hit test still reports W delivers no widget-targeted
button event at all. -/
theorem mouseButton_release_ends_drag (env : Env) (now : Int) (s : ScreenState)
    (button : Nat) (m : Int) (W : Nat)
    (hsup : modalSuppressed env s = false)
    (hdrag : s.dragActive = true)
    (hW : s.dragWidget = some W) :
    (mouseButtonCallbackEvent env now s button NG_RELEASE m).2.1.dragActive
        = false ∧
      (mouseButtonCallbackEvent env now s button NG_RELEASE m).2.1.dragWidget
        = none ∧
      (env.findWidget s.mousePos ≠ some W →
        (mouseButtonCallbackEvent env now s button NG_RELEASE m).2.2.head? =
          some (Ev.buttonTo W (vsub s.mousePos (env.parentAbsPos W)) button false)) ∧
      (env.findWidget s.mousePos = some W →
        (mouseButtonCallbackEvent env now s button NG_RELEASE m).2.2.filter
          isWidgetButtonEv = []) := by
  have hsup2 : modalSuppressed env
      ({ s with modifiers := m, lastInteraction := now }) = false := hsup
  refine ⟨?_, ?_, ?_, ?_⟩
  · simp [mouseButtonCallbackEvent, hsup2, NG_RELEASE, NG_PRESS]
  · simp [mouseButtonCallbackEvent, hsup2, NG_RELEASE, NG_PRESS]
  · intro hne
    simp only [mouseButtonCallbackEvent, hsup2, Bool.false_eq_true, if_false,
      NG_RELEASE, NG_PRESS]
    simp [hdrag, hW, hne]
  · intro heq
    simp only [mouseButtonCallbackEvent, hsup2, Bool.false_eq_true, if_false,
      NG_RELEASE, NG_PRESS]
    simp only [heq, hW]
    by_cases hcur : env.widgetCursor W = s.cursor
    · simp [hcur, isWidgetButtonEv]
    · simp [hcur, isWidgetButtonEv]

/-- Witness for C5 (amended) at a concrete mid-drag state whose release
hit-tests to the captured widget. -/
theorem mouseButton_release_ends_drag_witness :
    modalSuppressed dragEnv dragState = false ∧ dragState.dragActive = true ∧
      dragState.dragWidget = some 5 ∧
      ((mouseButtonCallbackEvent dragEnv 2 dragState 1 NG_RELEASE 0).2.1.dragActive
          = false ∧
        (mouseButtonCallbackEvent dragEnv 2 dragState 1 NG_RELEASE 0).2.1.dragWidget
          = none ∧
        (dragEnv.findWidget dragState.mousePos ≠ some 5 →
          (mouseButtonCallbackEvent dragEnv 2 dragState 1 NG_RELEASE 0).2.2.head? =
            some (Ev.buttonTo 5 (vsub dragState.mousePos (dragEnv.parentAbsPos 5))
              1 false)) ∧
        (dragEnv.findWidget dragState.mousePos = some 5 →
          (mouseButtonCallbackEvent dragEnv 2 dragState 1 NG_RELEASE 0).2.2.filter
            isWidgetButtonEv = [])) :=
  ⟨by decide, by decide, by decide,
   mouseButton_release_ends_drag dragEnv 2 dragState 1 0 5
     (by decide) (by decide) (by decide)⟩

/-- State whose cached framebuffer size is healthy while the backend is
about to report a degenerate framebuffer size. -/
def staleFbState : ScreenState := { baseState with fbSize := (1, 1), size := (7, 7) }

/-- Claim C4, failing input: the degenerate-size check of screen.cpp line
315 tests the stale cached `mFBSize` instead of the freshly queried
`fbSize`.  With cached `mFBSize = (1,1)` and the backend reporting
framebuffer size `(0,0)` and window size `(5,5)`, the handler does not
reject the resize: it overwrites the cached sizes (storing the degenerate
`(0,0)` framebuffer size), updates `lastInteraction`, and delivers the
resize notification — the claim requires it to return false and leave all
state unchanged. -/
theorem resize_stale_check_bug :
    resizeCallbackEvent baseEnv 99 staleFbState (0, 0) (5, 5) =
      (true,
       { staleFbState with fbSize := (0, 0), size := (5, 5), lastInteraction := 99 },
       [Ev.resizeTo (5, 5)]) := by
  decide

/-- State in the middle of a drag of window 1 itself. -/
def dragWindowState : ScreenState :=
  { baseState with dragActive := true, dragWidget := some 1, children := [1] }

/-- Claim C8, failing input: `Screen::disposeWindow` nulls `mDragWidget`
when it is the disposed window but leaves `mDragActive` true, so the state
`dragActive = true ∧ dragWidget = null` — which the claimed invariant
forbids, and which `cursorPosCallbackEvent` would dereference — is
reachable. -/
theorem disposeWindow_breaks_drag_invariant :
    (disposeWindow dragWindowState 1).dragActive = true ∧
      (disposeWindow dragWindowState 1).dragWidget = none := by
  decide

/-- Parent links for the dangling-reference scenario: widget 2 is a child
of window 1, which is a child of screen 0. -/
def danglingParent : Nat → Option Nat :=
  fun n => if n = 2 then some 1 else if n = 1 then some 0 else none

/-- State dragging widget 2, which lives inside window 1. -/
def dragChildState : ScreenState :=
  { baseState with dragActive := true, dragWidget := some 2, children := [1] }

/-- Claim C9, failing input: disposing window 1 while `mDragWidget` points
at widget 2 — a widget of window 1's subtree but not the window itself —
removes the window (destroying its subtree) yet leaves `dragWidget`
referencing the destroyed widget 2, a dangling reference the claim rules
out. -/
theorem disposeWindow_dangling_dragWidget :
    (disposeWindow dragChildState 1).dragWidget = some 2 ∧
      inSubtree danglingParent 3 2 1 = true ∧
      (disposeWindow dragChildState 1).children = [] := by
  decide

end Nanogui
